import Mathlib

/-!
# FinanceTracker — verification of the transaction validation and AI pipeline

A shallow embedding, in Lean 4, of the core of the FinanceTracker web
application: the notes sanitizer, the field validators (amount, date, uuid),
the zod transaction schemas, the fixed-window rate limiter, and the API route
handlers for creating and updating transactions (both the bearer-token and the
cookie code paths), the receipt-extraction coercion step, and the legacy
client-side persist paths.

JavaScript values are modelled as follows:
* strings are `String` / `List Char`;
* `number` is `JsNumber` (`ℚ` plus `nan` / `posInf` / `negInf`, since the
  amount checks only compare against 0 and 10^9 these comparisons are exact);
* `null`/`undefined` are `Option`;
* `Date.now()` instants are `Nat` milliseconds;
* the in-memory rate-limit `Map` is an association list `List (String × _)`;
* the external store (supabase) is an oracle `Db` structure, and every network
  round-trip a handler issues against it is recorded in an explicit
  `List StoreOp` trace;
* the uuid / url format predicates that live inside the zod library (not in
  this repository) are abstract boolean parameters threaded through a `ValCtx`.

All definitions are executable; theorems close with `decide`/`rfl` on
concrete inputs.
-/

namespace FinanceTracker

/-! ## Sanitizer (src/lib/validation.ts, `sanitizeHtml`)

The implementation is three global regex replaces followed by a trim:

  input.replace(script-block-regex, '').replace(tag-regex, '')
       .replace(entity-regex, '').trim()

Each replace is embedded as a left-to-right scanner with the exact
leftmost-match semantics of a JavaScript global `String.replace`.
-/

/-- ASCII lower-casing, the effect of the regex `i` flag on the letters of
`script`. Mirrors case-insensitive matching in the JS regex engine. -/
def lcChar (c : Char) : Char :=
  if 'A' ≤ c ∧ c ≤ 'Z' then Char.ofNat (c.toNat + 32) else c

/-- Case-insensitive literal matching: `matchCI pat s` returns the remainder of
`s` after consuming `pat` case-insensitively, or `none` if `s` does not start
with `pat`. -/
def matchCI : List Char → List Char → Option (List Char)
  | [], s => some s
  | _ :: _, [] => none
  | p :: ps, c :: cs => if lcChar p = lcChar c then matchCI ps cs else none

theorem matchCI_length_le :
    ∀ p s r, matchCI p s = some r → r.length ≤ s.length := by
  intro p
  induction p with
  | nil => intro s r h; simp [matchCI] at h; simp [h]
  | cons a ps ih =>
    intro s r h
    cases s with
    | nil => simp [matchCI] at h
    | cons c cs =>
      simp only [matchCI] at h
      split at h
      · exact Nat.le_trans (ih cs r h) (Nat.le_succ _)
      · exact absurd h (by simp)

theorem matchCI_mem_of_mem :
    ∀ p s r, matchCI p s = some r → ∀ x ∈ p, ∃ y ∈ s, lcChar y = lcChar x := by
  intro p
  induction p with
  | nil => intro s r _ x hx; simp at hx
  | cons a ps ih =>
    intro s r h x hx
    cases s with
    | nil => simp [matchCI] at h
    | cons c cs =>
      simp only [matchCI] at h
      split at h
      next heq =>
        rcases List.mem_cons.mp hx with rfl | hx'
        · exact ⟨c, List.mem_cons_self c cs, heq.symm⟩
        · obtain ⟨y, hy, hlc⟩ := ih cs r h x hx'
          exact ⟨y, List.mem_cons_of_mem c hy, hlc⟩
      next => exact absurd h (by simp)

theorem matchCI_sub :
    ∀ p s r, matchCI p s = some r → ∀ x ∈ r, x ∈ s := by
  intro p
  induction p with
  | nil => intro s r h x hx; simp [matchCI] at h; exact h ▸ hx
  | cons a ps ih =>
    intro s r h x hx
    cases s with
    | nil => simp [matchCI] at h
    | cons c cs =>
      simp only [matchCI] at h
      split at h
      · exact List.mem_cons_of_mem c (ih cs r h x hx)
      · exact absurd h (by simp)

/-- The letters of the literal `script` in `<script\b…`. -/
def scriptOpen : List Char := ['s', 'c', 'r', 'i', 'p', 't']

/-- The literal closing tag `</script>` of the script-block regex. -/
def scriptClose : List Char := ['<', '/', 's', 'c', 'r', 'i', 'p', 't', '>']

/-- A word character, for the `\b` boundary after `<script`. -/
def isWordChar (c : Char) : Bool := c.isAlpha || c.isDigit || c = '_'

theorem length_dropWhile_le (p : Char → Bool) (l : List Char) :
    (l.dropWhile p).length ≤ l.length := by
  conv_rhs => rw [← List.takeWhile_append_dropWhile p l]
  rw [List.length_append]
  omega

theorem dropWhile_sub (p : Char → Bool) (l : List Char) :
    ∀ x ∈ l.dropWhile p, x ∈ l := by
  intro x hx
  have h := List.takeWhile_append_dropWhile p l
  rw [← h]
  exact List.mem_append_right _ hx

/-- Only `>` itself lower-cases to `>` (the upper-case letters lower-case into
the `a`–`z` range, which does not contain `>`). -/
theorem lcChar_eq_gt {y : Char} (h : lcChar y = lcChar '>') : y = '>' := by
  have h' : lcChar y = '>' := by simpa [lcChar] using h
  unfold lcChar at h'
  split at h'
  · next hy =>
    exfalso
    have h1 : 65 ≤ y.toNat := hy.1
    have h2 : y.toNat ≤ 90 := hy.2
    have hv : (y.toNat + 32).isValidChar := by left; omega
    have hn : (Char.ofNat (y.toNat + 32)).toNat = y.toNat + 32 := by
      simp [Char.ofNat, hv]
      rfl
    have h62 : ('>' : Char).toNat = 62 := by decide
    rw [h'] at hn
    omega
  · exact h'

/-- Matches the regex fragment `[^<]*(?:(?!<\/script>)<[^<]*)*<\/script>`
(the body and closing tag of the script-block regex
`/<script\b[^<]*(?:(?!<\/script>)<[^<]*)*<\/script>/gi`): repeatedly consume a
run of non-`<` characters; when positioned at `</script>` (case-insensitive)
consume it and succeed, otherwise consume the `<` and continue; fail at end of
input. The regex is deterministic (no backtracking changes the outcome)
because every quantified piece stops exactly at a `<`. Returns the remainder
after the closing tag. The `fuel` argument makes the recursion structural
(each step strictly shrinks the input, so `s.length + 1` fuel always
suffices); `scriptBody` below fixes it. -/
def scriptBodyGo : Nat → List Char → Option (List Char)
  | 0, _ => none
  | fuel + 1, s =>
    match matchCI scriptClose (s.dropWhile (· ≠ '<')) with
    | some suf => some suf
    | none =>
      match s.dropWhile (· ≠ '<') with
      | [] => none
      | _ :: t => scriptBodyGo fuel t

def scriptBody (s : List Char) : Option (List Char) := scriptBodyGo (s.length + 1) s

theorem scriptBodyGo_length_le :
    ∀ fuel s r, scriptBodyGo fuel s = some r → r.length ≤ s.length := by
  intro fuel
  induction fuel with
  | zero => intro s r h; simp [scriptBodyGo] at h
  | succ fuel ih =>
    intro s r h
    rw [scriptBodyGo] at h
    split at h
    next suf hm =>
      obtain rfl : suf = r := Option.some.inj h
      exact Nat.le_trans (matchCI_length_le _ _ _ hm)
        (length_dropWhile_le (· ≠ '<') s)
    next =>
      split at h
      next => simp at h
      next c t heq =>
        have h1 := length_dropWhile_le (· ≠ '<') s
        rw [heq] at h1
        simp at h1
        have := ih t r h
        omega

theorem scriptBodyGo_some_mem_gt :
    ∀ fuel s r, scriptBodyGo fuel s = some r → '>' ∈ s := by
  intro fuel
  induction fuel with
  | zero => intro s r h; simp [scriptBodyGo] at h
  | succ fuel ih =>
    intro s r h
    rw [scriptBodyGo] at h
    split at h
    next suf hm =>
      obtain ⟨y, hy, hlc⟩ := matchCI_mem_of_mem _ _ _ hm '>' (by simp [scriptClose])
      exact dropWhile_sub _ _ _ (lcChar_eq_gt hlc ▸ hy)
    next =>
      split at h
      next => simp at h
      next c t heq =>
        have hmem : '>' ∈ c :: t := List.mem_cons_of_mem c (ih t r h)
        exact dropWhile_sub _ _ _ (heq ▸ hmem)

theorem scriptBody_length_le {s r : List Char} (h : scriptBody s = some r) :
    r.length ≤ s.length :=
  scriptBodyGo_length_le _ _ _ h

theorem scriptBody_some_mem_gt {s r : List Char} (h : scriptBody s = some r) :
    '>' ∈ s :=
  scriptBodyGo_some_mem_gt _ _ _ h

/-- Attempts the whole script-block regex at a position whose `<` has already
been consumed: `t` is the input after that `<`. Matches `script` (from the
`i` flag: case-insensitively), checks the `\b` word boundary, then delegates
to `scriptBody`. Returns the remainder after the whole match. -/
def scriptMatch (t : List Char) : Option (List Char) :=
  match matchCI scriptOpen t with
  | none => none
  | some r1 => if r1.head?.any isWordChar then none else scriptBody r1

theorem scriptMatch_length_le {t r : List Char} (h : scriptMatch t = some r) :
    r.length ≤ t.length := by
  unfold scriptMatch at h
  split at h
  next => cases h
  next r1 hm =>
    split at h
    · cases h
    · exact Nat.le_trans (scriptBody_length_le h) (matchCI_length_le _ _ _ hm)

theorem scriptMatch_some_mem_gt {t r : List Char} (h : scriptMatch t = some r) :
    '>' ∈ t := by
  unfold scriptMatch at h
  split at h
  next => cases h
  next r1 hm =>
    split at h
    · cases h
    · exact matchCI_sub _ _ _ hm '>' (scriptBody_some_mem_gt h)

/-- The global replace
`input.replace(/<script\b[^<]*(?:(?!<\/script>)<[^<]*)*<\/script>/gi, '')`:
scan left to right; at each `<` attempt the script-block match, consuming it
when it succeeds, otherwise keep the character and continue — exactly the
leftmost, non-overlapping semantics of a JavaScript global replace. The fuel
shrinks by at least one per consumed character, so `s.length` fuel suffices. -/
def stripScriptGo : Nat → List Char → List Char
  | 0, s => s
  | _, [] => []
  | fuel + 1, a :: t =>
    if a = '<' then
      match scriptMatch t with
      | some suf => stripScriptGo fuel suf
      | none => a :: stripScriptGo fuel t
    else a :: stripScriptGo fuel t

def stripScript (s : List Char) : List Char := stripScriptGo s.length s

/-- The global replace for a one-character-delimited pattern with a non-empty
body: at `o := '<'`, `c := '>'` this is `.replace(/<[^>]+>/g, '')`, and at
`o := '&'`, `c := ';'` it is `.replace(/&[^;]+;/g, '')`. Since the body class
excludes the closing delimiter, the greedy body runs exactly to the next
closing delimiter; the scan keeps the opening character whenever the body
would be empty or no closing delimiter follows. -/
def stripDelimGo (o c : Char) : Nat → List Char → List Char
  | 0, s => s
  | _, [] => []
  | fuel + 1, a :: t =>
    if a = o ∧ t.takeWhile (· ≠ c) ≠ [] ∧ t.dropWhile (· ≠ c) ≠ [] then
      stripDelimGo o c fuel (t.dropWhile (· ≠ c)).tail
    else a :: stripDelimGo o c fuel t

def stripDelim (o c : Char) (s : List Char) : List Char := stripDelimGo o c s.length s

/-- JavaScript `String.prototype.trim` whitespace (the ASCII whitespace
characters plus no-break space and the BOM; the exotic Unicode space
characters are omitted, no input in this development contains them). -/
def jsWs (ch : Char) : Bool :=
  ch = ' ' || ch = '\t' || ch = '\n' || ch = '\r' ||
  ch = '\x0b' || ch = '\x0c' || ch = ' ' || ch = '﻿'

/-- `….trim()`: drop whitespace from both ends. -/
def trimChars (s : List Char) : List Char :=
  ((s.dropWhile jsWs).reverse.dropWhile jsWs).reverse

/-- `sanitizeHtml` (src/lib/validation.ts): `null`/`undefined` and the empty
string map to `null` (the `if (!input) return null` falsy check); otherwise
strip script blocks, then all remaining tags, then entity references, then
trim. -/
def sanitizeHtml (input : Option String) : Option String :=
  match input with
  | none => none
  | some s =>
    if s = "" then none
    else some (String.mk (trimChars
      (stripDelim '&' ';' (stripDelim '<' '>' (stripScript s.data)))))

example : sanitizeHtml (some "<script>alert(1)</script>Lunch") = some "Lunch" := by decide
example : sanitizeHtml (some "  <SCRIPT a=b>x<i></ScRiPt>done ") = some "done" := by decide
example : sanitizeHtml (some "&amp;hi &nbsp; <b>bold</b>") = some "hi  bold" := by decide
example : sanitizeHtml (some "<a>") = some "" := by decide
example : sanitizeHtml (some "<scripty>alert</script>x") = some "alertx" := by decide

/-! ### Idempotence machinery

`DelimFree o c s` says the global replace for the pattern `o[^c]+c` finds no
match in `s`: wherever `o` occurs, either the closing delimiter follows
immediately (empty body) or it never occurs again. The output of the
corresponding strip has this shape, and strips of other delimiters, as well
as trimming, preserve it. -/

def DelimFree (o c : Char) (s : List Char) : Prop :=
  ∀ pre rest, s = pre ++ o :: rest →
    rest.takeWhile (· ≠ c) = [] ∨ rest.dropWhile (· ≠ c) = []

theorem delimFree_nil {o c : Char} : DelimFree o c [] := by
  intro pre rest hpr
  exact absurd hpr (by simp)

theorem delimFree_append_right {o c : Char} {a b : List Char}
    (h : DelimFree o c (a ++ b)) : DelimFree o c b := by
  intro pre rest hpr
  exact h (a ++ pre) rest (by rw [hpr, List.append_assoc])

theorem delimFree_append_left {o c : Char} {a b : List Char}
    (h : DelimFree o c (a ++ b)) : DelimFree o c a := by
  intro pre rest hpr
  have h2 := h pre (rest ++ b) (by rw [hpr]; simp)
  rcases h2 with h2 | h2
  · left
    cases rest with
    | nil => rfl
    | cons r rs =>
      by_cases hrc : (fun x => decide (x ≠ c)) r
      · exfalso
        have hne : List.takeWhile (fun x => decide (x ≠ c)) (r :: (rs ++ b)) ≠ [] := by
          simp only [List.takeWhile_cons, hrc]
          simp
        exact hne h2
      · exact List.takeWhile_cons_of_neg hrc
  · right
    rw [List.dropWhile_eq_nil_iff] at h2 ⊢
    intro x hx
    exact h2 x (List.mem_append_left _ hx)

theorem delimFree_cons_iff {o c x : Char} {t : List Char} :
    DelimFree o c (x :: t) ↔
      ((x = o → t.takeWhile (· ≠ c) = [] ∨ t.dropWhile (· ≠ c) = []) ∧
        DelimFree o c t) := by
  constructor
  · intro h
    refine ⟨fun hx => h [] t (by rw [hx]; rfl), ?_⟩
    exact delimFree_append_right (a := [x]) h
  · rintro ⟨hhead, htail⟩ pre rest hpr
    cases pre with
    | nil =>
      simp only [List.nil_append, List.cons.injEq] at hpr
      obtain ⟨rfl, rfl⟩ := hpr
      exact hhead rfl
    | cons p ps =>
      simp only [List.cons_append, List.cons.injEq] at hpr
      exact htail ps rest hpr.2

theorem dropWhile_head_not {p : Char → Bool} :
    ∀ {t : List Char} {y : Char} {rest : List Char},
      t.dropWhile p = y :: rest → p y = false := by
  intro t
  induction t with
  | nil => intro y rest h; simp [List.dropWhile] at h
  | cons a t ih =>
    intro y rest h
    by_cases hp : p a
    · rw [List.dropWhile_cons_of_pos hp] at h
      exact ih h
    · rw [List.dropWhile_cons_of_neg hp] at h
      injection h with h1 h2
      subst h1
      simpa using hp

/-- A list whose `dropWhile (· ≠ c)` is non-empty splits as
`takeWhile ++ c :: tail-of-dropWhile`. -/
theorem split_at_delim {c : Char} {t : List Char}
    (h : t.dropWhile (· ≠ c) ≠ []) :
    t = t.takeWhile (· ≠ c) ++ c :: (t.dropWhile (· ≠ c)).tail := by
  rcases hdw : t.dropWhile (· ≠ c) with _ | ⟨y, rest⟩
  · exact absurd hdw h
  · have hyc : y = c := by simpa using dropWhile_head_not hdw
    conv_lhs => rw [← List.takeWhile_append_dropWhile (fun x => decide (x ≠ c)) t]
    rw [hdw, hyc]
    simp

theorem mem_stripDelimGo {o c : Char} :
    ∀ fuel s x, x ∈ stripDelimGo o c fuel s → x ∈ s := by
  intro fuel
  induction fuel with
  | zero => intro s x hx; simpa [stripDelimGo] using hx
  | succ fuel ih =>
    intro s x hx
    cases s with
    | nil => exact hx
    | cons a t =>
      rw [stripDelimGo] at hx
      split at hx
      · next hcond =>
        obtain ⟨ha, htw, hdw⟩ := hcond
        have hx2 := ih _ x hx
        apply List.mem_cons_of_mem
        rw [split_at_delim hdw]
        exact List.mem_append_right _ (List.mem_cons_of_mem _ hx2)
      · next =>
        rcases List.mem_cons.mp hx with hxa | hx'
        · exact hxa ▸ List.mem_cons_self _ _
        · exact List.mem_cons_of_mem _ (ih t x hx')

theorem stripDelimGo_zero {o c : Char} (s : List Char) :
    stripDelimGo o c 0 s = s := by
  cases s <;> rfl

theorem stripScriptGo_zero (s : List Char) : stripScriptGo 0 s = s := by
  cases s <;> rfl

theorem stripDelimGo_eq_self {o c : Char} :
    ∀ fuel s, DelimFree o c s → stripDelimGo o c fuel s = s := by
  intro fuel
  induction fuel with
  | zero => intro s _; exact stripDelimGo_zero s
  | succ fuel ih =>
    intro s hs
    cases s with
    | nil => rfl
    | cons a t =>
      obtain ⟨hhead, htail⟩ := delimFree_cons_iff.mp hs
      rw [stripDelimGo, if_neg, ih t htail]
      rintro ⟨ha, htw, hdw⟩
      rcases hhead ha with h | h
      · exact htw h
      · exact hdw h

theorem takeWhile_ne_nil_of_head {c b : Char} {ts : List Char}
    (h : (b :: ts).takeWhile (· ≠ c) = []) : b = c := by
  by_contra hbc
  simp only [List.takeWhile_cons] at h
  simp [hbc] at h

theorem delimFree_stripDelimGo {o c : Char} (hoc : o ≠ c) :
    ∀ fuel s, s.length ≤ fuel → DelimFree o c (stripDelimGo o c fuel s) := by
  intro fuel
  induction fuel with
  | zero =>
    intro s hl
    have : s = [] := List.length_eq_zero.mp (Nat.le_zero.mp hl)
    subst this
    exact delimFree_nil
  | succ fuel ih =>
    intro s hl
    cases s with
    | nil => exact delimFree_nil
    | cons a t =>
      rw [stripDelimGo]
      simp only [List.length_cons] at hl
      have hlt : t.length ≤ fuel := by omega
      split
      · next hcond =>
        obtain ⟨ha, htw, hdw⟩ := hcond
        have hlen : (t.dropWhile (· ≠ c)).tail.length ≤ fuel := by
          have h1 := length_dropWhile_le (· ≠ c) t
          rcases hdw2 : t.dropWhile (· ≠ c) with _ | ⟨y, rest⟩
          · simp
          · rw [hdw2] at h1
            simp only [hdw2, List.tail_cons]
            simp at h1
            omega
        exact ih _ hlen
      · next hcond =>
        rw [delimFree_cons_iff]
        refine ⟨?_, ih t hlt⟩
        intro ha
        have hor : t.takeWhile (· ≠ c) = [] ∨ t.dropWhile (· ≠ c) = [] := by
          by_contra hcon
          push_neg at hcon
          exact hcond ⟨ha, hcon.1, hcon.2⟩
        rcases hor with h | h
        · cases t with
          | nil => left; cases fuel <;> rfl
          | cons b ts =>
            have hb : b = c := takeWhile_ne_nil_of_head h
            subst hb
            left
            cases fuel with
            | zero => simp at hlt
            | succ f =>
              rw [stripDelimGo, if_neg]
              · exact List.takeWhile_cons_of_neg (by simp)
              · rintro ⟨hco, _, _⟩
                exact hoc hco.symm
        · right
          rw [List.dropWhile_eq_nil_iff] at h ⊢
          intro x hx
          exact h x (mem_stripDelimGo fuel t x hx)

theorem delimFree_stripDelimGo_other {o₁ c₁ o₂ c₂ : Char} (hc : c₂ ≠ o₁) :
    ∀ fuel s, DelimFree o₂ c₂ s → DelimFree o₂ c₂ (stripDelimGo o₁ c₁ fuel s) := by
  intro fuel
  induction fuel with
  | zero =>
    intro s h
    rw [stripDelimGo_zero]
    exact h
  | succ fuel ih =>
    intro s hs
    cases s with
    | nil => exact hs
    | cons a t =>
      obtain ⟨hhead, htail⟩ := delimFree_cons_iff.mp hs
      rw [stripDelimGo]
      split
      · next hcond =>
        obtain ⟨ha, htw, hdw⟩ := hcond
        apply ih
        have hsplit := split_at_delim hdw
        rw [hsplit] at htail
        have hassoc :
            t.takeWhile (· ≠ c₁) ++ c₁ :: (t.dropWhile (· ≠ c₁)).tail =
              (t.takeWhile (· ≠ c₁) ++ [c₁]) ++ (t.dropWhile (· ≠ c₁)).tail := by
          simp
        rw [hassoc] at htail
        exact delimFree_append_right htail
      · next =>
        rw [delimFree_cons_iff]
        refine ⟨?_, ih t htail⟩
        intro ha2
        rcases hhead ha2 with h | h
        · cases t with
          | nil => left; cases fuel <;> rfl
          | cons b ts =>
            have hb : b = c₂ := takeWhile_ne_nil_of_head h
            subst hb
            left
            cases fuel with
            | zero => exact List.takeWhile_cons_of_neg (by simp)
            | succ f =>
              rw [stripDelimGo, if_neg]
              · exact List.takeWhile_cons_of_neg (by simp)
              · rintro ⟨hbo, _, _⟩
                exact hc hbo
        · right
          rw [List.dropWhile_eq_nil_iff] at h ⊢
          intro x hx
          exact h x (mem_stripDelimGo fuel t x hx)

theorem stripScriptGo_eq_self :
    ∀ fuel s, DelimFree '<' '>' s → stripScriptGo fuel s = s := by
  intro fuel
  induction fuel with
  | zero => intro s _; exact stripScriptGo_zero s
  | succ fuel ih =>
    intro s hs
    cases s with
    | nil => rfl
    | cons a t =>
      obtain ⟨hhead, htail⟩ := delimFree_cons_iff.mp hs
      rw [stripScriptGo]
      by_cases ha : a = '<'
      · rw [if_pos ha]
        have hm : scriptMatch t = none := by
          cases hsm : scriptMatch t with
          | none => rfl
          | some suf =>
            exfalso
            have hgt : '>' ∈ t := scriptMatch_some_mem_gt hsm
            rcases hhead ha with h | h
            · cases t with
              | nil => simp at hgt
              | cons b ts =>
                have hb : b = '>' := takeWhile_ne_nil_of_head h
                subst hb
                have hnone : matchCI scriptOpen ('>' :: ts) = none := by
                  rw [scriptOpen, matchCI, if_neg]
                  decide
                rw [scriptMatch, hnone] at hsm
                cases hsm
            · rw [List.dropWhile_eq_nil_iff] at h
              have := h '>' hgt
              simp at this
        rw [hm, ih t htail]
      · rw [if_neg ha, ih t htail]

theorem dropWhile_dropWhile (p : Char → Bool) (l : List Char) :
    (l.dropWhile p).dropWhile p = l.dropWhile p := by
  cases hdw : l.dropWhile p with
  | nil => rfl
  | cons y rest =>
    have hy := dropWhile_head_not hdw
    exact List.dropWhile_cons_of_neg (by simp [hy])

/-- The trimmed list, shown as a prefix of the left-trimmed list. -/
theorem trim_split (u : List Char) :
    u = (u.reverse.dropWhile jsWs).reverse ++ (u.reverse.takeWhile jsWs).reverse := by
  conv_lhs => rw [← List.reverse_reverse u,
    ← List.takeWhile_append_dropWhile jsWs u.reverse]
  rw [List.reverse_append]

theorem trimChars_idem (s : List Char) : trimChars (trimChars s) = trimChars s := by
  unfold trimChars
  have hdrop_v :
      ((s.dropWhile jsWs).reverse.dropWhile jsWs).reverse.dropWhile jsWs =
        ((s.dropWhile jsWs).reverse.dropWhile jsWs).reverse := by
    cases hv : ((s.dropWhile jsWs).reverse.dropWhile jsWs).reverse with
    | nil => rfl
    | cons x xs =>
      have hux : s.dropWhile jsWs =
          x :: (xs ++ ((s.dropWhile jsWs).reverse.takeWhile jsWs).reverse) := by
        conv_lhs => rw [trim_split (s.dropWhile jsWs)]
        rw [hv]
        simp
      have hx : jsWs x = false := dropWhile_head_not hux
      exact List.dropWhile_cons_of_neg (by simp [hx])
  rw [hdrop_v, List.reverse_reverse, dropWhile_dropWhile]

theorem delimFree_trimChars {o c : Char} {s : List Char}
    (h : DelimFree o c s) : DelimFree o c (trimChars s) := by
  unfold trimChars
  have h1 : DelimFree o c (s.dropWhile jsWs) := by
    have heq := List.takeWhile_append_dropWhile jsWs s
    exact delimFree_append_right (a := s.takeWhile jsWs) (by rw [heq]; exact h)
  have h2 := trim_split (s.dropWhile jsWs)
  rw [h2] at h1
  exact delimFree_append_left h1

/-- The tag strip leaves a tag-free list: lemma 4 of the idempotence argument,
specialised to the wrappers used by `sanitizeHtml`. -/
theorem delimFree_stripDelim {o c : Char} (hoc : o ≠ c) (s : List Char) :
    DelimFree o c (stripDelim o c s) :=
  delimFree_stripDelimGo hoc s.length s (Nat.le_refl _)

theorem delimFree_stripDelim_other {o₁ c₁ o₂ c₂ : Char} (hc : c₂ ≠ o₁)
    {s : List Char} (h : DelimFree o₂ c₂ s) :
    DelimFree o₂ c₂ (stripDelim o₁ c₁ s) :=
  delimFree_stripDelimGo_other hc s.length s h

theorem stripDelim_eq_self {o c : Char} {s : List Char} (h : DelimFree o c s) :
    stripDelim o c s = s :=
  stripDelimGo_eq_self s.length s h

theorem stripScript_eq_self {s : List Char} (h : DelimFree '<' '>' s) :
    stripScript s = s :=
  stripScriptGo_eq_self s.length s h

/-- One full sanitizer pass over a non-empty string, at the character level. -/
theorem sanitize_pass_fixed (x : List Char) :
    trimChars (stripDelim '&' ';' (stripDelim '<' '>' (stripScript
      (trimChars (stripDelim '&' ';' (stripDelim '<' '>' (stripScript x))))))) =
    trimChars (stripDelim '&' ';' (stripDelim '<' '>' (stripScript x))) := by
  have hA : DelimFree '<' '>' (stripDelim '<' '>' (stripScript x)) :=
    delimFree_stripDelim (by decide) _
  have hB1 : DelimFree '&' ';'
      (stripDelim '&' ';' (stripDelim '<' '>' (stripScript x))) :=
    delimFree_stripDelim (by decide) _
  have hB2 : DelimFree '<' '>'
      (stripDelim '&' ';' (stripDelim '<' '>' (stripScript x))) :=
    delimFree_stripDelim_other (by decide) hA
  have hz1 : DelimFree '<' '>'
      (trimChars (stripDelim '&' ';' (stripDelim '<' '>' (stripScript x)))) :=
    delimFree_trimChars hB2
  have hz2 : DelimFree '&' ';'
      (trimChars (stripDelim '&' ';' (stripDelim '<' '>' (stripScript x)))) :=
    delimFree_trimChars hB1
  rw [stripScript_eq_self hz1, stripDelim_eq_self hz1, stripDelim_eq_self hz2,
    trimChars_idem]

/-- **C7**: `sanitize` returns null for null/empty input; for every other
string it is exactly the four-stage pipeline — remove case-insensitive
`<script>…</script>` blocks, strip remaining `<…>` tag-like substrings, strip
`&…;` entity references, trim — and in particular
`"<script>alert(1)</script>Lunch"` sanitizes to `"Lunch"`. The function is
total (a Lean function), so no input raises an exception. -/
theorem claim_C7 :
    sanitizeHtml none = none ∧
    sanitizeHtml (some "") = none ∧
    (∀ s : String, s ≠ "" →
      sanitizeHtml (some s) = some (String.mk (trimChars (stripDelim '&' ';'
        (stripDelim '<' '>' (stripScript s.data)))))) ∧
    sanitizeHtml (some "<script>alert(1)</script>Lunch") = some "Lunch" := by
  refine ⟨rfl, rfl, ?_, by decide⟩
  intro s hs
  simp [sanitizeHtml, hs]

theorem claim_C7_witness :
    ("a<b>c" : String) ≠ "" ∧
    sanitizeHtml (some "a<b>c") = some (String.mk (trimChars (stripDelim '&' ';'
      (stripDelim '<' '>' (stripScript ("a<b>c" : String).data))))) :=
  ⟨by decide, claim_C7.2.2.1 "a<b>c" (by decide)⟩

/-- **C8 (counterexample)**: sanitizing `"<a>"` (a string containing an HTML
tag) yields the empty string `""`, but sanitizing again yields `null` (the
falsy guard maps `""` to null), so `sanitize (sanitize x) ≠ sanitize x`
at `x := "<a>"`. -/
theorem claim_C8_counterexample :
    sanitizeHtml (sanitizeHtml (some "<a>")) ≠ sanitizeHtml (some "<a>") := by
  decide

/-- **C8 (amended)**: the sanitizer is idempotent on every input whose first
pass yields a non-empty string: if `sanitize x = y` with `y ≠ ""`, then
`sanitize y = y`. (The only failure of idempotence as originally claimed is
when the first pass yields the empty string, which a second pass maps to
null.) -/
theorem claim_C8 (x y : String) (h : sanitizeHtml (some x) = some y)
    (hy : y ≠ "") : sanitizeHtml (some y) = some y := by
  simp only [sanitizeHtml] at h
  by_cases hx : x = ""
  · rw [if_pos hx] at h; cases h
  · rw [if_neg hx] at h
    obtain rfl := Option.some.inj h
    simp only [sanitizeHtml]
    rw [if_neg hy]
    exact congrArg some (congrArg String.mk (sanitize_pass_fixed x.data))

theorem claim_C8_witness :
    sanitizeHtml (some "<i>Lunch</i> &amp; ") = some "Lunch" ∧
    sanitizeHtml (some "Lunch") = some "Lunch" :=
  ⟨by decide, claim_C8 "<i>Lunch</i> &amp; " "Lunch" (by decide) (by decide)⟩

/-! ## Field validators (src/lib/validation.ts)

`JsNumber` models a JavaScript `number`: `ℚ` plus the non-finite values.
The amount checks only compare against 0 and 10^9, both exactly representable,
so `ℚ` is a faithful stand-in for binary floating point here. -/

inductive JsNumber where
  | nan
  | posInf
  | negInf
  | finite (q : ℚ)
deriving DecidableEq

/-- The amount field of the transaction schemas:
`z.number({invalid_type_error: 'Amount must be a number'})
  .positive('Amount must be greater than 0')
  .max(1000000000, 'Amount exceeds maximum limit (1 billion)')
  .refine((val) => val !== 0, 'Amount cannot be zero')`.
`NaN` fails the `z.number()` typecheck: zod reports `invalid_type` and the
parse aborts, so the trailing `.refine` does not run. `±Infinity` pass the
typecheck in zod v3 and flow into the `positive`/`max` comparisons
(`Infinity > 0` holds, `Infinity ≤ 10^9` fails; `-Infinity > 0` fails; both
are non-zero, so the refinement adds nothing for them). A failing
`positive`/`max` check only marks the parse *dirty*, and zod still executes
the refinement on a dirty parse — so `0` fails both `.positive()` and the
refinement and emits two messages, in check order. -/
def amountErrors : JsNumber → List String
  | .nan => ["Amount must be a number"]
  | .negInf => ["Amount must be greater than 0"]
  | .posInf => ["Amount exceeds maximum limit (1 billion)"]
  | .finite q =>
    (if q ≤ 0 then ["Amount must be greater than 0"] else []) ++
    (if 1000000000 < q then ["Amount exceeds maximum limit (1 billion)"] else []) ++
    (if q = 0 then ["Amount cannot be zero"] else [])

/-- **C9**: the amount check passes exactly on finite amounts with
`0 < a ≤ 1,000,000,000`; every other `number` — non-positive, above the cap,
or non-finite — fails it, and every message it can emit is one of the four
amount-specific messages of the chain (including `Amount cannot be zero`,
which the dirty-parse refinement adds alongside the positivity message when
the amount is 0). -/
theorem claim_C9 :
    ∀ a : JsNumber,
      (amountErrors a = [] ↔
        ∃ q : ℚ, a = JsNumber.finite q ∧ 0 < q ∧ q ≤ 1000000000) ∧
      (∀ m ∈ amountErrors a,
        m ∈ ["Amount must be a number", "Amount must be greater than 0",
             "Amount exceeds maximum limit (1 billion)", "Amount cannot be zero"]) := by
  intro a
  cases a with
  | nan => exact ⟨by simp [amountErrors], by intro m hm; simp [amountErrors] at hm; simp [hm]⟩
  | posInf => exact ⟨by simp [amountErrors], by intro m hm; simp [amountErrors] at hm; simp [hm]⟩
  | negInf => exact ⟨by simp [amountErrors], by intro m hm; simp [amountErrors] at hm; simp [hm]⟩
  | finite q =>
    have hAE : amountErrors (JsNumber.finite q) =
        (if q ≤ 0 then ["Amount must be greater than 0"] else []) ++
        ((if 1000000000 < q then ["Amount exceeds maximum limit (1 billion)"] else []) ++
         (if q = 0 then ["Amount cannot be zero"] else [])) := by
      simp only [amountErrors, List.append_assoc]
    constructor
    · constructor
      · intro h
        rw [hAE] at h
        refine ⟨q, rfl, ?_, ?_⟩
        · by_contra hq
          rw [if_pos (not_lt.mp hq)] at h
          exact absurd h (by simp)
        · by_contra hq
          rcases List.append_eq_nil.mp h with ⟨-, h2⟩
          rw [if_pos (not_le.mp hq)] at h2
          exact absurd h2 (by simp)
      · rintro ⟨q', heq, hpos, hle⟩
        obtain rfl : q = q' := by injection heq
        rw [hAE, if_neg (not_le.mpr hpos), if_neg (not_lt.mpr hle), if_neg (ne_of_gt hpos)]
        rfl
    · intro m hm
      rw [hAE, List.mem_append, List.mem_append] at hm
      rcases hm with hm | hm | hm <;>
        · split at hm <;> simp at hm
          simp [hm]

theorem claim_C9_witness :
    amountErrors (JsNumber.finite 50) = [] ∧
    amountErrors (JsNumber.finite (-5)) ≠ [] := by
  constructor
  · exact (claim_C9 (JsNumber.finite 50)).1.mpr ⟨50, rfl, by norm_num, by norm_num⟩
  · intro hc
    obtain ⟨q, heq, hpos, _⟩ := (claim_C9 (JsNumber.finite (-5))).1.mp hc
    obtain rfl : (-5 : ℚ) = q := by injection heq
    norm_num at hpos

/-! ## Date validation (src/lib/validation.ts, `validateDate`)

`new Date("YYYY-MM-DD")` parses the string as an ISO date at midnight UTC and
yields Invalid Date when the components do not form a real proleptic-Gregorian
calendar date; comparisons against `minDate = new Date('1900-01-01')` (also
midnight UTC) and `maxDate = now with the year advanced by one` are therefore
day-level comparisons, and `Invalid Date` (`NaN`) fails both. `today` below is
the calendar date of the `new Date()` call. -/

structure CalDate where
  year : Nat
  month : Nat
  day : Nat
deriving DecidableEq

def isLeapYear (y : Nat) : Bool :=
  (y % 4 = 0 && !(y % 100 = 0)) || y % 400 = 0

def daysInMonth (y m : Nat) : Nat :=
  if m = 1 ∨ m = 3 ∨ m = 5 ∨ m = 7 ∨ m = 8 ∨ m = 10 ∨ m = 12 then 31
  else if m = 4 ∨ m = 6 ∨ m = 9 ∨ m = 11 then 30
  else if m = 2 then (if isLeapYear y then 29 else 28)
  else 0

def isRealDate (d : CalDate) : Bool :=
  1 ≤ d.month && d.month ≤ 12 && 1 ≤ d.day && d.day ≤ daysInMonth d.year d.month

/-- Day-level `≤` on calendar dates (the order of the midnight-UTC instants). -/
def dateLE (d e : CalDate) : Bool :=
  d.year < e.year ||
    (d.year = e.year &&
      (d.month < e.month || (d.month = e.month && d.day ≤ e.day)))

def digitVal (ch : Char) : Nat := ch.toNat - 48

/-- The anchored regex `^\d{4}-\d{2}-\d{2}$` together with reading the three
components: succeeds exactly on ten-character strings of the literal shape,
returning the (not yet range-checked) components. -/
def parseYMD : List Char → Option CalDate
  | [y1, y2, y3, y4, h1, m1, m2, h2, d1, d2] =>
    if y1.isDigit && y2.isDigit && y3.isDigit && y4.isDigit && (h1 == '-') &&
       m1.isDigit && m2.isDigit && (h2 == '-') && d1.isDigit && d2.isDigit then
      some ⟨digitVal y1 * 1000 + digitVal y2 * 100 + digitVal y3 * 10 + digitVal y4,
            digitVal m1 * 10 + digitVal m2,
            digitVal d1 * 10 + digitVal d2⟩
    else none
  | _ => none

/-- `maxDate.setFullYear(maxDate.getFullYear() + 1)`, with the JavaScript
day-of-month overflow rule: Feb 29 of a non-leap target year rolls over to
Mar 1. -/
def addOneYear (d : CalDate) : CalDate :=
  if d.month = 2 ∧ d.day = 29 ∧ ¬ (isLeapYear (d.year + 1) = true) then
    ⟨d.year + 1, 3, 1⟩
  else ⟨d.year + 1, d.month, d.day⟩

/-- `validateDate` (src/lib/validation.ts): format regex, then
`new Date(dateString)`, then `date >= minDate && date <= maxDate &&
!isNaN(date.getTime())`. -/
def validateDate (today : CalDate) (s : String) : Bool :=
  match parseYMD s.data with
  | none => false
  | some d => isRealDate d && dateLE ⟨1900, 1, 1⟩ d && dateLE d (addOneYear today)

/-- The date field of the transaction schemas: the `.regex(…)` check, then the
`validateDate` refinement. A failing regex only marks the parse dirty, and zod
runs refinements on dirty parses too; since `validateDate` itself re-checks
the regex, a malformed string collects both the format message and the range
message. -/
def dateErrors (today : CalDate) (s : String) : List String :=
  (if (parseYMD s.data).isSome then []
   else ["Date must be in YYYY-MM-DD format"]) ++
  (if validateDate today s then []
   else ["Date must be between 1900-01-01 and 1 year from today"])

example : validateDate ⟨2026, 10, 11⟩ "2024-03-15" = true := by decide
example : validateDate ⟨2026, 10, 11⟩ "2024-02-30" = false := by decide
example : validateDate ⟨2026, 10, 11⟩ "2024-3-15" = false := by decide
example : validateDate ⟨2026, 10, 11⟩ "1899-12-31" = false := by decide
example : validateDate ⟨2026, 10, 11⟩ "2027-10-11" = true := by decide
example : validateDate ⟨2026, 10, 11⟩ "2027-10-12" = false := by decide
example : validateDate ⟨2026, 10, 11⟩ "2024-02-29" = true := by decide

structure RateLimitEntry where
  count : Nat
  resetTime : Nat
deriving DecidableEq

structure RateLimitConfig where
  limit : Nat
  window : Nat
deriving DecidableEq

abbrev RLStore := List (String × RateLimitEntry)

def rlGet (st : RLStore) (k : String) : Option RateLimitEntry :=
  match st with
  | [] => none
  | (k', v) :: rest => if k' = k then some v else rlGet rest k

def rlSet (k : String) (v : RateLimitEntry) (st : RLStore) : RLStore :=
  (k, v) :: st.filter (fun p => p.1 ≠ k)

theorem rlGet_rlSet_self (k : String) (v : RateLimitEntry) (st : RLStore) :
    rlGet (rlSet k v st) k = some v := by
  simp [rlGet, rlSet]

theorem rlGet_rlSet_other {k k' : String} (hne : k' ≠ k)
    (v : RateLimitEntry) (st : RLStore) :
    rlGet (rlSet k v st) k' = rlGet st k' := by
  unfold rlSet
  rw [rlGet, if_neg (fun h => hne h.symm)]
  induction st with
  | nil => rfl
  | cons p rest ih =>
    obtain ⟨pk, pv⟩ := p
    by_cases hpk : pk = k
    · subst hpk
      rw [List.filter_cons_of_neg (by simp)]
      rw [rlGet, if_neg (fun h => hne h.symm), ih]
    · rw [List.filter_cons_of_pos (by simp [hpk])]
      rw [rlGet, rlGet]
      split
      · rfl
      · exact ih

/-- The result object of `checkRateLimit`: `success`, optional `resetTime`,
optional `remaining` (an `Int`, since `config.limit - 1` is plain JS
arithmetic). -/
structure RLResult where
  success : Bool
  resetTime : Option Nat
  remaining : Option Int
deriving DecidableEq

/-- `checkRateLimit(userId, config)` (src/lib/rate-limit.ts 44–85) acting on
the store: no entry or `entry.resetTime < now` starts a fresh window with
count 1 and `resetTime = now + window`; a live window with
`count >= limit` denies, reporting the recorded `resetTime`; otherwise the
count is incremented and the request allowed. The key is `userId` alone. -/
def checkRateLimit (st : RLStore) (now : Nat) (userId : String)
    (config : RateLimitConfig) : RLStore × RLResult :=
  let key := userId
  match rlGet st key with
  | none =>
    (rlSet key ⟨1, now + config.window⟩ st,
     ⟨true, none, some ((config.limit : Int) - 1)⟩)
  | some entry =>
    if entry.resetTime < now then
      (rlSet key ⟨1, now + config.window⟩ st,
       ⟨true, none, some ((config.limit : Int) - 1)⟩)
    else if config.limit ≤ entry.count then
      (st, ⟨false, some entry.resetTime, none⟩)
    else
      (rlSet key ⟨entry.count + 1, entry.resetTime⟩ st,
       ⟨true, none, some ((config.limit : Int) - (entry.count + 1))⟩)

/-- `RATE_LIMITS.AI_CHAT`: 10 requests per 60 000 ms. -/
def RATE_LIMITS_AI_CHAT : RateLimitConfig := ⟨10, 60 * 1000⟩

/-- `RATE_LIMITS.RECEIPT`: 20 requests per 60 000 ms. -/
def RATE_LIMITS_RECEIPT : RateLimitConfig := ⟨20, 60 * 1000⟩

/-- The rate-limit call of POST /api/ai-chat:
`checkRateLimit(user.id, RATE_LIMITS.AI_CHAT)`. -/
def aiChatRateCheck (st : RLStore) (now : Nat) (userId : String) :
    RLStore × RLResult :=
  checkRateLimit st now userId RATE_LIMITS_AI_CHAT

/-- The rate-limit call of POST /api/receipt:
`checkRateLimit(user.id, RATE_LIMITS.RECEIPT)`. -/
def receiptRateCheck (st : RLStore) (now : Nat) (userId : String) :
    RLStore × RLResult :=
  checkRateLimit st now userId RATE_LIMITS_RECEIPT

/-- A sequence of `checkRateLimit` calls for one user at the given times,
returning the final store and the per-call results. -/
def runCalls (st : RLStore) (u : String) (config : RateLimitConfig) :
    List Nat → RLStore × List RLResult
  | [] => (st, [])
  | t :: ts =>
    let step := checkRateLimit st t u config
    let rest := runCalls step.1 u config ts
    (rest.1, step.2 :: rest.2)

/-- Steady-state behaviour of a live window: starting from an entry
`⟨cnt, R⟩` for `u`, calls at times that do not pass `R` produce the counting
pattern (call `i` succeeds iff `cnt + i < limit`; denials report `R`), and the
final count is capped at `limit`. -/
theorem runCalls_live (config : RateLimitConfig) (u : String) :
    ∀ (ts : List Nat) (st : RLStore) (cnt R : Nat),
      rlGet st u = some ⟨cnt, R⟩ →
      (∀ t ∈ ts, t ≤ R) →
      (runCalls st u config ts).2 =
        (List.range ts.length).map (fun i =>
          if cnt + i < config.limit then
            ⟨true, none, some ((config.limit : Int) - ((cnt : Int) + i + 1))⟩
          else ⟨false, some R, none⟩) ∧
      rlGet (runCalls st u config ts).1 u =
        some ⟨if config.limit ≤ cnt then cnt
              else min (cnt + ts.length) config.limit, R⟩ := by
  intro ts
  induction ts with
  | nil =>
    intro st cnt R hget _
    refine ⟨rfl, ?_⟩
    have hval :
        (if config.limit ≤ cnt then cnt
         else min (cnt + ([] : List Nat).length) config.limit) = cnt := by
      simp only [List.length_nil, Nat.add_zero, Nat.min_def]
      split_ifs <;> omega
    simp only [runCalls]
    rw [hval]
    exact hget
  | cons t ts ih =>
    intro st cnt R hget hts
    have hlive : ¬ R < t := by
      have := hts t (List.mem_cons_self t ts)
      omega
    by_cases hcap : config.limit ≤ cnt
    · -- denied: store unchanged, count stays at cnt
      have hstep : checkRateLimit st t u config = (st, ⟨false, some R, none⟩) := by
        simp only [checkRateLimit, hget]
        rw [if_neg hlive, if_pos hcap]
      obtain ⟨hres, hfin⟩ :=
        ih st cnt R hget (fun t' ht' => hts t' (List.mem_cons_of_mem t ht'))
      constructor
      · show (runCalls st u config (t :: ts)).2 = _
        rw [runCalls]
        simp only [hstep, hres, List.length_cons]
        rw [List.range_succ_eq_map, List.map_cons, List.map_map]
        congr 1
        · rw [if_neg (by omega)]
        · apply List.map_congr_left
          intro i _
          simp only [Function.comp, Nat.succ_eq_add_one]
          rw [if_neg (by omega), if_neg (by omega)]
      · show rlGet (runCalls st u config (t :: ts)).1 u = _
        rw [runCalls]
        simp only [hstep, hfin]
        rw [if_pos hcap, if_pos hcap]
    · -- allowed: count increments to cnt + 1
      push_neg at hcap
      have hstep : checkRateLimit st t u config =
          (rlSet u ⟨cnt + 1, R⟩ st,
           ⟨true, none, some ((config.limit : Int) - ((cnt : Int) + 1))⟩) := by
        simp only [checkRateLimit, hget]
        rw [if_neg hlive, if_neg (by omega)]
      obtain ⟨hres, hfin⟩ := ih (rlSet u ⟨cnt + 1, R⟩ st) (cnt + 1) R
        (rlGet_rlSet_self u ⟨cnt + 1, R⟩ st)
        (fun t' ht' => hts t' (List.mem_cons_of_mem t ht'))
      constructor
      · show (runCalls st u config (t :: ts)).2 = _
        rw [runCalls]
        simp only [hstep, hres, List.length_cons]
        rw [List.range_succ_eq_map, List.map_cons, List.map_map]
        congr 1
        · rw [if_pos (by omega)]
          norm_num
        · apply List.map_congr_left
          intro i _
          simp only [Function.comp, Nat.succ_eq_add_one]
          by_cases hib : cnt + 1 + i < config.limit
          · rw [if_pos hib, if_pos (by omega)]
            congr 2
            push_cast
            ring
          · rw [if_neg hib, if_neg (by omega)]
      · show rlGet (runCalls st u config (t :: ts)).1 u = _
        rw [runCalls]
        simp only [hstep, hfin]
        have hval :
            (if config.limit ≤ cnt + 1 then cnt + 1
             else min (cnt + 1 + ts.length) config.limit) =
            (if config.limit ≤ cnt then cnt
             else min (cnt + (t :: ts).length) config.limit) := by
          simp only [List.length_cons, Nat.min_def]
          split_ifs <;> omega
        rw [hval]

/-- **C2**: for a user with no live window at `t₀` (no entry, or an expired
one), the first call starts a window `⟨count 1, reset t₀ + W⟩` and is allowed;
over any burst of further calls inside `[t₀, t₀ + W]`, call `i` (0-based)
succeeds iff `i < limit` — so exactly `limit` requests succeed and the
`(limit+1)`-th is denied reporting the recorded reset time `t₀ + W`; and any
call strictly after `t₀ + W` is allowed and starts a fresh window. -/
theorem claim_C2 (st : RLStore) (u : String) (config : RateLimitConfig)
    (t₀ : Nat) (ts : List Nat)
    (hN : 1 ≤ config.limit)
    (hfresh : rlGet st u = none ∨ ∃ e, rlGet st u = some e ∧ e.resetTime < t₀)
    (hts : ∀ t ∈ ts, t₀ ≤ t ∧ t ≤ t₀ + config.window) :
    (checkRateLimit st t₀ u config).2 =
      ⟨true, none, some ((config.limit : Int) - 1)⟩ ∧
    rlGet (checkRateLimit st t₀ u config).1 u = some ⟨1, t₀ + config.window⟩ ∧
    (runCalls st u config (t₀ :: ts)).2 =
      (List.range (ts.length + 1)).map (fun i =>
        if i < config.limit then
          ⟨true, none, some ((config.limit : Int) - ((i : Int) + 1))⟩
        else ⟨false, some (t₀ + config.window), none⟩) ∧
    (∀ t', t₀ + config.window < t' →
      (checkRateLimit (runCalls st u config (t₀ :: ts)).1 t' u config).2.success
          = true ∧
      rlGet (checkRateLimit (runCalls st u config (t₀ :: ts)).1 t' u config).1 u
          = some ⟨1, t' + config.window⟩) := by
  have hstep : checkRateLimit st t₀ u config =
      (rlSet u ⟨1, t₀ + config.window⟩ st,
       ⟨true, none, some ((config.limit : Int) - 1)⟩) := by
    rcases hfresh with hnone | ⟨e, hsome, hexp⟩
    · simp only [checkRateLimit, hnone]
    · simp only [checkRateLimit, hsome]
      rw [if_pos hexp]
  have hlivetrace := runCalls_live config u ts
    (rlSet u ⟨1, t₀ + config.window⟩ st) 1 (t₀ + config.window)
    (rlGet_rlSet_self u _ st) (fun t ht => (hts t ht).2)
  obtain ⟨hres, hfin⟩ := hlivetrace
  refine ⟨by rw [hstep], by rw [hstep]; exact rlGet_rlSet_self u _ st, ?_, ?_⟩
  · rw [runCalls]
    simp only [hstep, hres, List.length_cons]
    rw [List.range_succ_eq_map, List.map_cons, List.map_map]
    congr 1
    · rw [if_pos (by omega)]
      norm_num
    · apply List.map_congr_left
      intro i _
      simp only [Function.comp, Nat.succ_eq_add_one]
      by_cases hib : 1 + i < config.limit
      · rw [if_pos hib, if_pos (by omega)]
        congr 2
        push_cast
        ring
      · rw [if_neg hib, if_neg (by omega)]
  · intro t' ht'
    rw [runCalls]
    simp only [hstep]
    have hexp' : (⟨if config.limit ≤ 1 then 1
        else min (1 + ts.length) config.limit, t₀ + config.window⟩ :
        RateLimitEntry).resetTime < t' := ht'
    constructor
    · simp only [checkRateLimit, hfin]
      rw [if_pos hexp']
    · simp only [checkRateLimit, hfin]
      rw [if_pos hexp']
      exact rlGet_rlSet_self u _ _

theorem claim_C2_witness :
    (runCalls [] "u" ⟨2, 60⟩ [0, 10, 20]).2 =
      [⟨true, none, some 1⟩, ⟨true, none, some 0⟩, ⟨false, some 60, none⟩] := by
  have h := claim_C2 [] "u" ⟨2, 60⟩ 0 [10, 20] (by decide) (Or.inl rfl)
    (by decide)
  rw [h.2.2.1]
  decide

/-- **C6 (counterexample)**: starting from an empty store, ten receipt-scan
requests by user `u` at time 0 are all allowed (the receipt limit is 20), yet
the very first AI-chat request of the same user at time 0 is then denied: the
two endpoint classes share the single map entry keyed by the user id alone,
so receipt traffic consumed the chat budget — refuting the claimed
independence. -/
theorem claim_C6_counterexample :
    ((runCalls [] "u" RATE_LIMITS_RECEIPT (List.replicate 10 0)).2.all
        (·.success)) = true ∧
    (aiChatRateCheck
        (runCalls [] "u" RATE_LIMITS_RECEIPT (List.replicate 10 0)).1
        0 "u").2.success = false := by
  decide

/-- **C6 (amended)**: the rate-limit store is keyed by user id alone; the
AI-chat check (limit 10) and the receipt check (limit 20) for the same user
read and write one shared entry. Against a live shared entry with count `c`,
AI-chat is allowed iff `c < 10` and receipt iff `c < 20` — and an allowed
receipt request bumps the shared count, shrinking the AI-chat budget. -/
theorem claim_C6 (st : RLStore) (now : Nat) (u : String) (e : RateLimitEntry)
    (hget : rlGet st u = some e) (hlive : ¬ e.resetTime < now) :
    ((aiChatRateCheck st now u).2.success = true ↔ e.count < 10) ∧
    ((receiptRateCheck st now u).2.success = true ↔ e.count < 20) ∧
    (e.count < 20 →
      rlGet (receiptRateCheck st now u).1 u = some ⟨e.count + 1, e.resetTime⟩ ∧
      ((aiChatRateCheck (receiptRateCheck st now u).1 now u).2.success = true ↔
        e.count + 1 < 10)) := by
  obtain ⟨c, R⟩ := e
  simp only [RateLimitEntry.count, RateLimitEntry.resetTime] at *
  have hai : ∀ st' c', rlGet st' u = some ⟨c', R⟩ →
      ((checkRateLimit st' now u RATE_LIMITS_AI_CHAT).2.success = true ↔
        c' < 10) := by
    intro st' c' hget'
    simp only [checkRateLimit, hget', RATE_LIMITS_AI_CHAT]
    rw [if_neg hlive]
    by_cases hc : (10 : Nat) ≤ c'
    · rw [if_pos hc]
      simp
      omega
    · rw [if_neg hc]
      simp
      omega
  refine ⟨hai st c hget, ?_, ?_⟩
  · simp only [receiptRateCheck, checkRateLimit, hget, RATE_LIMITS_RECEIPT]
    rw [if_neg hlive]
    by_cases hc : (20 : Nat) ≤ c
    · rw [if_pos hc]
      simp
      omega
    · rw [if_neg hc]
      simp
      omega
  · intro hc20
    have hstep : receiptRateCheck st now u =
        (rlSet u ⟨c + 1, R⟩ st,
         ⟨true, none, some ((20 : Int) - ((c : Int) + 1))⟩) := by
      simp only [receiptRateCheck, checkRateLimit, hget, RATE_LIMITS_RECEIPT]
      rw [if_neg hlive, if_neg (by omega)]
      norm_num
    rw [hstep]
    exact ⟨rlGet_rlSet_self u _ st,
      hai _ (c + 1) (rlGet_rlSet_self u _ st)⟩

theorem claim_C6_witness :
    (aiChatRateCheck [("u", ⟨15, 100⟩)] 50 "u").2.success = false ∧
    (receiptRateCheck [("u", ⟨15, 100⟩)] 50 "u").2.success = true := by
  have h := claim_C6 [("u", ⟨15, 100⟩)] 50 "u" ⟨15, 100⟩ (by decide) (by decide)
  constructor
  · have h1 := h.1
    rw [iff_false_intro (by decide : ¬ (15 : Nat) < 10)] at h1
    exact Bool.not_eq_true _ ▸ (by simpa using h1)
  · exact h.2.1.mpr (by decide)

/-! ## Whole-record schema validation (src/lib/validation.ts,
`transactionSchema` / `transactionUpdateSchema`)

The request body is modelled as typed optional fields (`none` = the JSON key
is absent). The uuid and url format predicates live inside the zod library,
not in this repository, so they are abstract parameters of the validation
context; no claim depends on their exact shape. zod collects the issues of
all fields (in declaration order), so a failing parse reports every violated
field at once. -/

structure ValCtx where
  uuidOk : String → Bool
  urlOk : String → Bool
  today : CalDate

structure FieldError where
  path : String
  message : String
deriving DecidableEq

structure RawBody where
  amount : Option JsNumber
  type : Option String
  date : Option String
  category : Option String
  payment_source : Option String
  notes : Option (Option String)
  image_url : Option (Option String)
deriving DecidableEq

def tagErrs (path : String) (msgs : List String) : List FieldError :=
  msgs.map (fun m => ⟨path, m⟩)

def amountFieldErrors : Option JsNumber → List String
  | none => ["Amount is required"]
  | some a => amountErrors a

def typeFieldErrors : Option String → List String
  | none => ["Transaction type is required"]
  | some t =>
    if t = "income" ∨ t = "expense" then []
    else ["Type must be either \"income\" or \"expense\""]

def dateFieldErrors (today : CalDate) : Option String → List String
  | none => ["Date is required"]
  | some s => dateErrors today s

def categoryFieldErrors (ctx : ValCtx) : Option String → List String
  | none => ["Category is required"]
  | some s => if ctx.uuidOk s then [] else ["Category must be a valid UUID"]

def paymentSourceFieldErrors (ctx : ValCtx) : Option String → List String
  | none => ["Payment source is required"]
  | some s =>
    if ctx.uuidOk s then [] else ["Payment source must be a valid UUID"]

def notesFieldErrors : Option (Option String) → List String
  | none => []
  | some none => []
  | some (some s) =>
    if s.length ≤ 1000 then [] else ["Notes cannot exceed 1000 characters"]

/-- `z.union([z.string().url('Image URL must be a valid URL'), z.null()])
.optional()`: a present non-null value failing the url check fails both union
options, which zod reports as one `invalid_union` issue whose message is the
generic `Invalid input` — the inner custom message is not surfaced. -/
def imageUrlFieldErrors (ctx : ValCtx) : Option (Option String) → List String
  | none => []
  | some none => []
  | some (some u) =>
    if ctx.urlOk u then [] else ["Invalid input"]

def userIdFieldErrors (ctx : ValCtx) (uid : String) : List String :=
  if ctx.uuidOk uid then [] else ["User ID must be a valid UUID"]

/-- `transactionSchema.safeParse({...body, user_id})`: the collected issue
list; the parse succeeds iff this list is empty. -/
def validateTransaction (ctx : ValCtx) (b : RawBody) (uid : String) :
    List FieldError :=
  tagErrs "amount" (amountFieldErrors b.amount) ++
  tagErrs "type" (typeFieldErrors b.type) ++
  tagErrs "date" (dateFieldErrors ctx.today b.date) ++
  tagErrs "category" (categoryFieldErrors ctx b.category) ++
  tagErrs "payment_source" (paymentSourceFieldErrors ctx b.payment_source) ++
  tagErrs "notes" (notesFieldErrors b.notes) ++
  tagErrs "image_url" (imageUrlFieldErrors ctx b.image_url) ++
  tagErrs "user_id" (userIdFieldErrors ctx uid)

/-- A parsed-and-transformed record, as the handlers persist it. The only
transform in the schema is `notes → sanitizeHtml(notes)`. When validation
passed all the required fields are present, so the `getD` defaults are never
read on the persisted path. -/
structure TxnRecord where
  amount : JsNumber
  type : String
  date : String
  category : String
  payment_source : String
  notes : Option String
  image_url : Option String
  user_id : String
deriving DecidableEq

def buildRecord (b : RawBody) (uid : String) : TxnRecord where
  amount := b.amount.getD (JsNumber.finite 0)
  type := b.type.getD ""
  date := b.date.getD ""
  category := b.category.getD ""
  payment_source := b.payment_source.getD ""
  notes := sanitizeHtml b.notes.join
  image_url := b.image_url.join
  user_id := uid

/-! ## The transaction API handlers (src/app/api/transactions/route.ts)

The repository carries two revisions of the route file: an earlier one whose
handlers take a bearer-token fast path (with a cookie fallback identical to
the later revision), and the current cookie-only one. `postBearer`/`putBearer`
embed the bearer-token branches of the earlier revision; `postCookie`/
`putCookie` embed the cookie handlers (identical in both revisions).

Every store round-trip is recorded in the returned `StoreOp` trace, in issue
order. The store itself is the `Db` oracle: a category/payment-source
existence query succeeds iff the id is in the respective list, the
transaction fetch returns the stored owner, and `insertOk`/`updateOk` are the
outcomes of the write calls. Auth (a network call to the identity provider,
not to the store) is the `user : Option String` parameter. -/

inductive StoreOp where
  | queryCategory (id : String)
  | queryPaymentSource (id : String)
  | fetchTxn (id : String)
  | insertTxn (r : TxnRecord)
  | updateTxn (id : String) (r : TxnRecord)
deriving DecidableEq

structure Db where
  cats : List String
  pss : List String
  txns : List (String × String)
  insertOk : Bool
  updateOk : Bool
deriving DecidableEq

def findTxnOwner : List (String × String) → String → Option String
  | [], _ => none
  | (k, owner) :: rest, id => if k = id then some owner else findTxnOwner rest id

structure HResp where
  status : Nat
  error : Option String
  details : List FieldError
deriving DecidableEq

/-- POST /api/transactions, cookie path (both revisions): authenticate,
validate, check category and payment source (issued together via
`Promise.all`), insert. -/
def refOps (r : TxnRecord) : List StoreOp :=
  [StoreOp.queryCategory r.category, StoreOp.queryPaymentSource r.payment_source]

def postCookie (ctx : ValCtx) (db : Db) (user : Option String) (b : RawBody) :
    HResp × List StoreOp :=
  match user with
  | none => (⟨401, some "Unauthorized. Please log in.", []⟩, [])
  | some uid =>
    if validateTransaction ctx b uid ≠ [] then
      (⟨400, some "Invalid transaction data", validateTransaction ctx b uid⟩, [])
    else if (buildRecord b uid).category ∉ db.cats then
      (⟨400, some "Invalid category selected", []⟩, refOps (buildRecord b uid))
    else if (buildRecord b uid).payment_source ∉ db.pss then
      (⟨400, some "Invalid payment source selected", []⟩, refOps (buildRecord b uid))
    else if db.insertOk then
      (⟨201, none, []⟩, refOps (buildRecord b uid) ++ [StoreOp.insertTxn (buildRecord b uid)])
    else
      (⟨500, some "Failed to create transaction. Please try again.", []⟩,
       refOps (buildRecord b uid) ++ [StoreOp.insertTxn (buildRecord b uid)])

/-- POST /api/transactions, bearer-token path of the earlier revision: same
pipeline over the REST API (validate, the two reference checks, insert). -/
def postBearer (ctx : ValCtx) (db : Db) (user : Option String) (b : RawBody) :
    HResp × List StoreOp :=
  postCookie ctx db user b

/-- PUT /api/transactions, cookie path (both revisions): authenticate, require
a body id, fetch the existing record, 404 when missing, 403 when owned by a
different user, then validate, reference-check, and update. -/
def putCookie (ctx : ValCtx) (db : Db) (user : Option String) (b : RawBody)
    (bodyId : Option String) : HResp × List StoreOp :=
  match user with
  | none => (⟨401, some "Unauthorized. Please log in.", []⟩, [])
  | some uid =>
    match bodyId with
    | none => (⟨400, some "Transaction ID is required for updates", []⟩, [])
    | some id =>
      if id = "" then
        (⟨400, some "Transaction ID is required for updates", []⟩, [])
      else
        match findTxnOwner db.txns id with
        | none => (⟨404, some "Transaction not found", []⟩, [StoreOp.fetchTxn id])
        | some owner =>
          if owner ≠ uid then
            (⟨403, some "Unauthorized. You can only update your own transactions.", []⟩,
             [StoreOp.fetchTxn id])
          else if validateTransaction ctx b uid ≠ [] then
            (⟨400, some "Invalid transaction data", validateTransaction ctx b uid⟩,
             [StoreOp.fetchTxn id])
          else if (buildRecord b uid).category ∉ db.cats then
            (⟨400, some "Invalid category selected", []⟩,
             StoreOp.fetchTxn id :: refOps (buildRecord b uid))
          else if (buildRecord b uid).payment_source ∉ db.pss then
            (⟨400, some "Invalid payment source selected", []⟩,
             StoreOp.fetchTxn id :: refOps (buildRecord b uid))
          else if db.updateOk then
            (⟨200, none, []⟩,
             StoreOp.fetchTxn id :: refOps (buildRecord b uid) ++
               [StoreOp.updateTxn id (buildRecord b uid)])
          else
            (⟨500, some "Failed to update transaction. Please try again.", []⟩,
             StoreOp.fetchTxn id :: refOps (buildRecord b uid) ++
               [StoreOp.updateTxn id (buildRecord b uid)])

/-- PUT /api/transactions, bearer-token path of the earlier revision. The one
behavioural difference from the cookie path: a fetched record owned by a
different user is folded into the same `404 Transaction not found` response as
a missing record (`existing.length === 0 || existing[0].user_id !== user.id`),
instead of a 403. -/
def putBearer (ctx : ValCtx) (db : Db) (user : Option String) (b : RawBody)
    (bodyId : Option String) : HResp × List StoreOp :=
  match user with
  | none => (⟨401, some "Unauthorized. Please log in.", []⟩, [])
  | some uid =>
    match bodyId with
    | none => (⟨400, some "Transaction ID is required for updates", []⟩, [])
    | some id =>
      if id = "" then
        (⟨400, some "Transaction ID is required for updates", []⟩, [])
      else
        match findTxnOwner db.txns id with
        | none => (⟨404, some "Transaction not found", []⟩, [StoreOp.fetchTxn id])
        | some owner =>
          if owner ≠ uid then
            (⟨404, some "Transaction not found", []⟩, [StoreOp.fetchTxn id])
          else if validateTransaction ctx b uid ≠ [] then
            (⟨400, some "Invalid transaction data", validateTransaction ctx b uid⟩,
             [StoreOp.fetchTxn id])
          else if (buildRecord b uid).category ∉ db.cats then
            (⟨400, some "Invalid category selected", []⟩,
             StoreOp.fetchTxn id :: refOps (buildRecord b uid))
          else if (buildRecord b uid).payment_source ∉ db.pss then
            (⟨400, some "Invalid payment source selected", []⟩,
             StoreOp.fetchTxn id :: refOps (buildRecord b uid))
          else if db.updateOk then
            (⟨200, none, []⟩,
             StoreOp.fetchTxn id :: refOps (buildRecord b uid) ++
               [StoreOp.updateTxn id (buildRecord b uid)])
          else
            (⟨500, some "Failed to update transaction. Please try again.", []⟩,
             StoreOp.fetchTxn id :: refOps (buildRecord b uid) ++
               [StoreOp.updateTxn id (buildRecord b uid)])

/-! ## Legacy client-side persist paths

`oldFormSubmit` embeds `handleSubmit` of the earlier TransactionForm revision
(src/unnamed/part_000, lines 71–111): after the auth check it builds
`transactionData` straight from the form state and calls
`supabase.from('transactions').update/insert` directly — no schema
validation, no category or payment-source existence query.

`receiptClientPersist` embeds the persist step of ReceiptScanner
(src/unnamed/part_002, lines 177–197): the server-validated draft is turned
into a record (date forced to today, type `expense`, image discarded) and
inserted directly through the supabase client. -/

structure FormState where
  amountNum : JsNumber
  category : String
  paymentSource : String
  notes : String
  imageUrl : Option String
  date : String
  type : String
deriving DecidableEq

def oldFormSubmit (user : Option String) (editing : Option String)
    (f : FormState) : List StoreOp × Bool :=
  match user with
  | none => ([], false)
  | some uid =>
    let r : TxnRecord :=
      { amount := f.amountNum, type := f.type, date := f.date,
        category := f.category, payment_source := f.paymentSource,
        notes := if f.notes = "" then none else some f.notes,
        image_url := f.imageUrl, user_id := uid }
    match editing with
    | some tid => ([StoreOp.updateTxn tid r], true)
    | none => ([StoreOp.insertTxn r], true)

/-- The draft returned by the receipt route (already coerced and validated
server-side). -/
structure ReceiptDraft where
  amount : JsNumber
  date : String
  category : String
  payment_source : String
  notes : Option String
deriving DecidableEq

/-- `extractedData.amount || 0`: `NaN` (and 0 itself) are falsy. -/
def jsOrZero : JsNumber → JsNumber
  | JsNumber.nan => JsNumber.finite 0
  | JsNumber.finite q => if q = 0 then JsNumber.finite 0 else JsNumber.finite q
  | x => x

def receiptClientPersist (user : Option String) (d : ReceiptDraft)
    (todayStr : String) : List StoreOp × Bool :=
  match user with
  | none => ([], false)
  | some uid =>
    let r : TxnRecord :=
      { amount := jsOrZero d.amount, type := "expense", date := todayStr,
        category := d.category, payment_source := d.payment_source,
        notes := match d.notes with
                 | none => none
                 | some s => if s = "" then none else some s,
        image_url := none, user_id := uid }
    ([StoreOp.insertTxn r], true)

/-! ## Receipt extraction coercion and validation (src/unnamed/part_005,
POST /api/receipt, lines 320–357) -/

structure CatEntry where
  id : String
  name : String
deriving DecidableEq

/-- The JSON object parsed out of the AI reply (fields the route reads). -/
structure ParsedReceipt where
  amount : Option JsNumber
  date : Option String
  category : Option String
  payment_source : Option String
  notes : Option String
deriving DecidableEq

def jsFalsyStr : Option String → Bool
  | none => true
  | some s => s = ""

/-- `catalog.find(c => c.id === suggested)?.id || catalog[0]?.id`: the
suggested id when it matches a catalog entry, else the first catalog entry's
id (`undefined` when the catalog is empty; an empty-string id is falsy and
also falls through to the first entry). -/
def coerceId (catalog : List CatEntry) (suggested : Option String) :
    Option String :=
  let found := (catalog.find? (fun c => suggested = some c.id)).map (·.id)
  if jsFalsyStr found then catalog.head?.map (·.id) else found

/-- `receiptExtractionSchema` issues on the already-coerced draft. `amount`
is `z.number().min(0,…).max(1e9,…)` (the `.default(0)` never applies: the
route always supplies a number); `date` is the format regex only (no range
refinement on this schema); ids must be uuids; notes ≤ 1000 chars. -/
def receiptSchemaErrors (ctx : ValCtx) (d : ReceiptDraft) : List String :=
  (match d.amount with
   | JsNumber.nan => ["Expected number, received nan"]
   | JsNumber.negInf => ["Amount cannot be negative"]
   | JsNumber.posInf => ["Amount exceeds maximum limit"]
   | JsNumber.finite q =>
     (if q < 0 then ["Amount cannot be negative"] else []) ++
     (if 1000000000 < q then ["Amount exceeds maximum limit"] else [])) ++
  (if (parseYMD d.date.data).isSome then []
   else ["Date must be in YYYY-MM-DD format"]) ++
  (if ctx.uuidOk d.category then [] else ["Category must be a valid UUID"]) ++
  (if ctx.uuidOk d.payment_source then []
   else ["Payment source must be a valid UUID"]) ++
  (match d.notes with
   | none => []
   | some s =>
     if s.length ≤ 1000 then [] else ["Notes cannot exceed 1000 characters"])

/-- `dataToValidate` of the receipt route, after the coercion step
(`typeof parsedData.amount === 'number' ? parsedData.amount : 0`,
`parsedData.date || today`, `parsedData.notes || null`). -/
def mkReceiptDraft (cats pss : List CatEntry) (p : ParsedReceipt)
    (todayStr : String) : ReceiptDraft where
  amount := p.amount.getD (JsNumber.finite 0)
  date := match p.date with
          | none => todayStr
          | some s => if s = "" then todayStr else s
  category := (coerceId cats p.category).getD ""
  payment_source := (coerceId pss p.payment_source).getD ""
  notes := match p.notes with
           | none => none
           | some s => if s = "" then none else some s

/-- The coercion-and-validation tail of POST /api/receipt: the catalog
non-emptiness guard, the id coercion, the falsy re-check, the
`dataToValidate` construction, and the `receiptExtractionSchema.safeParse`
with its notes-sanitizing transform. -/
def receiptRouteValidate (ctx : ValCtx) (cats pss : List CatEntry)
    (p : ParsedReceipt) (todayStr : String) : Except HResp ReceiptDraft :=
  if cats.length = 0 ∨ pss.length = 0 then
    .error ⟨400, some "Please set up at least one category and payment source before scanning receipts.", []⟩
  else if jsFalsyStr (coerceId cats p.category) ∨
      jsFalsyStr (coerceId pss p.payment_source) then
    .error ⟨400, some "Please set up at least one category and payment source before scanning receipts.", []⟩
  else if receiptSchemaErrors ctx (mkReceiptDraft cats pss p todayStr) ≠ [] then
    .error ⟨400, some "Invalid receipt data extracted. Please try again.", []⟩
  else
    .ok { mkReceiptDraft cats pss p todayStr with
          notes := sanitizeHtml (mkReceiptDraft cats pss p todayStr).notes }

theorem coerceId_no_match (catalog : List CatEntry) (sug : Option String)
    (h : ∀ c ∈ catalog, sug ≠ some c.id) :
    coerceId catalog sug = catalog.head?.map (·.id) := by
  unfold coerceId
  have hfind : catalog.find? (fun c => sug = some c.id) = none := by
    rw [List.find?_eq_none]
    intro c hc
    simpa using h c hc
  rw [hfind]
  rfl

theorem coerceId_mem (catalog : List CatEntry) (sug : Option String)
    (x : String) (h : coerceId catalog sug = some x) :
    x ∈ catalog.map (·.id) := by
  simp only [coerceId] at h
  split at h
  · cases catalog with
    | nil => simp at h
    | cons c0 cs =>
      simp only [List.head?_cons, Option.map_some] at h
      obtain rfl : c0.id = x := Option.some.inj h
      exact List.mem_map_of_mem _ (List.mem_cons_self c0 cs)
  · cases hf : catalog.find? (fun c => sug = some c.id) with
    | none => rw [hf] at h; simp at h
    | some c =>
      rw [hf] at h
      have hcx : c.id = x := by simpa using h
      exact hcx ▸ List.mem_map_of_mem _ (List.mem_of_find?_eq_some hf)

/-- **C5**: in the receipt route, a suggested category (resp. payment-source)
id matching no catalog id is replaced by the first catalog entry's id before
validation; the coerced id — whichever branch produced it — is always an id
present in the catalog, so any draft the route validates references catalog
ids by construction. -/
theorem claim_C5 (ctx : ValCtx) (cats pss : List CatEntry)
    (p : ParsedReceipt) (todayStr : String) :
    ((∀ c ∈ cats, p.category ≠ some c.id) →
      coerceId cats p.category = cats.head?.map (·.id)) ∧
    ((∀ c ∈ pss, p.payment_source ≠ some c.id) →
      coerceId pss p.payment_source = pss.head?.map (·.id)) ∧
    (∀ x, coerceId cats p.category = some x → x ∈ cats.map (·.id)) ∧
    (∀ d, receiptRouteValidate ctx cats pss p todayStr = Except.ok d →
      d.category ∈ cats.map (·.id) ∧ d.payment_source ∈ pss.map (·.id)) := by
  refine ⟨coerceId_no_match cats p.category,
    coerceId_no_match pss p.payment_source,
    fun x h => coerceId_mem cats p.category x h, ?_⟩
  intro d heq
  unfold receiptRouteValidate at heq
  by_cases hempty : cats.length = 0 ∨ pss.length = 0
  · rw [if_pos hempty] at heq
    cases heq
  · rw [if_neg hempty] at heq
    by_cases hfal : jsFalsyStr (coerceId cats p.category) = true ∨
        jsFalsyStr (coerceId pss p.payment_source) = true
    · rw [if_pos hfal] at heq
      cases heq
    · rw [if_neg hfal] at heq
      by_cases hschema :
          receiptSchemaErrors ctx (mkReceiptDraft cats pss p todayStr) ≠ []
      · rw [if_pos hschema] at heq
        cases heq
      · rw [if_neg hschema] at heq
        obtain rfl := (Except.ok.inj heq).symm
        push_neg at hfal
        obtain ⟨hc, hp⟩ := hfal
        constructor
        · show (mkReceiptDraft cats pss p todayStr).category ∈ _
          cases hcc : coerceId cats p.category with
          | none => rw [hcc] at hc; simp [jsFalsyStr] at hc
          | some x =>
            have := coerceId_mem cats p.category x hcc
            simpa [mkReceiptDraft, hcc] using this
        · show (mkReceiptDraft cats pss p todayStr).payment_source ∈ _
          cases hpp : coerceId pss p.payment_source with
          | none => rw [hpp] at hp; simp [jsFalsyStr] at hp
          | some x =>
            have := coerceId_mem pss p.payment_source x hpp
            simpa [mkReceiptDraft, hpp] using this

theorem claim_C5_witness :
    coerceId [⟨"cat-1", "Food"⟩, ⟨"cat-2", "Rent"⟩] (some "hallucinated-id")
      = some "cat-1" ∧
    "cat-1" ∈ ([⟨"cat-1", "Food"⟩, ⟨"cat-2", "Rent"⟩] : List CatEntry).map (·.id) := by
  have h := claim_C5 ⟨fun _ => true, fun _ => true, ⟨2026, 10, 11⟩⟩
    [⟨"cat-1", "Food"⟩, ⟨"cat-2", "Rent"⟩] [⟨"p1", "Cash"⟩]
    ⟨some (JsNumber.finite 12.5), none, some "hallucinated-id", some "p1", none⟩
    "2026-10-11"
  refine ⟨?_, ?_⟩
  · have h1 := h.1 (by decide)
    simpa using h1
  · exact h.2.2.1 "cat-1" (by
      have h1 := h.1 (by decide)
      simpa using h1)

/-! ## Concrete fixtures for the scenario theorems -/

/-- A validation context whose library-internal format predicates accept
everything (the claims under test do not depend on uuid/url syntax). -/
def ctxAll : ValCtx := ⟨fun _ => true, fun _ => true, ⟨2026, 10, 11⟩⟩

def dbDemo : Db := ⟨["c1"], ["p1"], [("t1", "u"), ("t2", "alice")], true, true⟩

/-- A fully valid create/update body (amount 50, a real date, known ids); its
notes carry the spec's XSS scenario payload. -/
def validBody : RawBody :=
  ⟨some (JsNumber.finite 50), some "expense", some "2024-03-15",
   some "c1", some "p1", some (some "<script>alert(1)</script>Lunch"), none⟩

/-- The same body with `amount = -5` (the spec's ValidationFailed scenario). -/
def negAmountBody : RawBody :=
  ⟨some (JsNumber.finite (-5)), some "expense", some "2024-03-15",
   some "c1", some "p1", none, none⟩

example : validateTransaction ctxAll validBody "u" = [] := by decide
example : validateTransaction ctxAll negAmountBody "u" =
    [⟨"amount", "Amount must be greater than 0"⟩] := by decide

/-- **C4 (counterexample)**: on the bearer-token PUT path, an update of
`t2` (owned by `alice`) by requester `bob` with a fully valid payload
terminates with `404 Transaction not found` — not with the claimed Forbidden
(403) outcome. (The record is still not modified and nothing about the owner
is leaked, but the terminal outcome differs from the claim.) -/
theorem claim_C4_counterexample :
    putBearer ctxAll dbDemo (some "bob") validBody (some "t2") =
      (⟨404, some "Transaction not found", []⟩, [StoreOp.fetchTxn "t2"]) ∧
    (putBearer ctxAll dbDemo (some "bob") validBody (some "t2")).1.status ≠ 403 := by
  constructor
  · decide
  · decide

/-- **C4 (amended)**: an update whose target exists but is owned by a
different user terminates without modifying the record (the trace holds only
the ownership fetch), with a constant response independent of who the actual
owner is: `403` with the generic ownership message on the cookie path, and
`404 Transaction not found` on the bearer-token path (which folds the
ownership failure into not-found) — in both cases even when the payload is
fully valid. -/
theorem claim_C4 (ctx : ValCtx) (db : Db) (uid : String) (b : RawBody)
    (id : String) (owner : String)
    (hid : ¬ id = "") (hown : findTxnOwner db.txns id = some owner)
    (hne : owner ≠ uid) :
    putCookie ctx db (some uid) b (some id) =
      (⟨403, some "Unauthorized. You can only update your own transactions.", []⟩,
       [StoreOp.fetchTxn id]) ∧
    putBearer ctx db (some uid) b (some id) =
      (⟨404, some "Transaction not found", []⟩, [StoreOp.fetchTxn id]) := by
  constructor
  · simp only [putCookie, hown]
    rw [if_neg hid, if_pos hne]
  · simp only [putBearer, hown]
    rw [if_neg hid, if_pos hne]

theorem claim_C4_witness :
    putCookie ctxAll dbDemo (some "bob") validBody (some "t2") =
      (⟨403, some "Unauthorized. You can only update your own transactions.", []⟩,
       [StoreOp.fetchTxn "t2"]) :=
  (claim_C4 ctxAll dbDemo "bob" validBody "t2" "alice"
    (by decide) (by decide) (by decide)).1

/-- **C3 (counterexample)**: a PUT whose body fails schema validation
(`amount = -5`) against an existing, correctly-owned transaction does
terminate with the structured per-field error list — but only after the
ownership fetch: the trace contains a store read, contradicting "no store
read or write occurs on a validation failure". -/
theorem claim_C3_counterexample :
    putCookie ctxAll dbDemo (some "u") negAmountBody (some "t1") =
      (⟨400, some "Invalid transaction data",
        [⟨"amount", "Amount must be greater than 0"⟩]⟩,
       [StoreOp.fetchTxn "t1"]) ∧
    (putCookie ctxAll dbDemo (some "u") negAmountBody (some "t1")).2 ≠ [] := by
  constructor
  · decide
  · decide

/-- **C3 (amended)**: on a schema-validation failure the pipeline terminates
with status 400 and the full structured field-error list, before any
reference check or write. For create requests no store access at all has
happened; for update requests exactly the one ownership fetch of the target
precedes validation (the PUT handlers fetch the existing record before
validating), and still no reference read and no write occurs. -/
theorem claim_C3 (ctx : ValCtx) (db : Db) (uid : String) (b : RawBody)
    (id : String)
    (hval : validateTransaction ctx b uid ≠ [])
    (hid : ¬ id = "") (hown : findTxnOwner db.txns id = some uid) :
    postCookie ctx db (some uid) b =
      (⟨400, some "Invalid transaction data", validateTransaction ctx b uid⟩, []) ∧
    postBearer ctx db (some uid) b =
      (⟨400, some "Invalid transaction data", validateTransaction ctx b uid⟩, []) ∧
    putCookie ctx db (some uid) b (some id) =
      (⟨400, some "Invalid transaction data", validateTransaction ctx b uid⟩,
       [StoreOp.fetchTxn id]) ∧
    putBearer ctx db (some uid) b (some id) =
      (⟨400, some "Invalid transaction data", validateTransaction ctx b uid⟩,
       [StoreOp.fetchTxn id]) := by
  have hpost : postCookie ctx db (some uid) b =
      (⟨400, some "Invalid transaction data", validateTransaction ctx b uid⟩, []) := by
    simp only [postCookie]
    rw [if_pos hval]
  refine ⟨hpost, hpost, ?_, ?_⟩
  · simp only [putCookie, hown]
    rw [if_neg hid, if_neg (by simp : ¬ uid ≠ uid), if_pos hval]
  · simp only [putBearer, hown]
    rw [if_neg hid, if_neg (by simp : ¬ uid ≠ uid), if_pos hval]

theorem claim_C3_witness :
    postCookie ctxAll dbDemo (some "u") negAmountBody =
      (⟨400, some "Invalid transaction data",
        [⟨"amount", "Amount must be greater than 0"⟩]⟩, []) := by
  have h := claim_C3 ctxAll dbDemo "u" negAmountBody "t1"
    (by decide) (by decide) (by decide)
  rw [h.1]
  decide

/-- **C1 (counterexample)**: the legacy client form path
(src/unnamed/part_000 `handleSubmit`) persists a transaction straight through
the supabase client: for a logged-in user its trace is exactly one insert —
no category/payment-source query precedes it — and the inserted data fails
transaction schema validation (`amount = -5`, date `2024-13-99`), so a
Transaction is persisted on a code path where neither check ever ran. -/
theorem claim_C1_counterexample :
    (oldFormSubmit (some "u") none
        ⟨JsNumber.finite (-5), "not-a-category", "src", "", none,
         "2024-13-99", "expense"⟩).1 =
      [StoreOp.insertTxn ⟨JsNumber.finite (-5), "expense", "2024-13-99",
        "not-a-category", "src", none, none, "u"⟩] ∧
    validateTransaction ctxAll
        ⟨some (JsNumber.finite (-5)), some "expense", some "2024-13-99",
         some "not-a-category", some "src", none, none⟩ "u" ≠ [] := by
  constructor
  · decide
  · decide

/-- **C1 (amended)**: every server-side API handler (POST and PUT, bearer and
cookie paths) only ever emits an insert or update after schema validation
passed and both the category and the payment source were confirmed to exist
in the store; the legacy client form path and the receipt-scanner client
path, by contrast, emit their insert/update directly, with no validation and
no existence query in their traces. -/
theorem claim_C1 (ctx : ValCtx) (db : Db) (uid : String) (b : RawBody)
    (bid : Option String) (tid : String) (r : TxnRecord) :
    (StoreOp.insertTxn r ∈ (postCookie ctx db (some uid) b).2 →
      validateTransaction ctx b uid = [] ∧
      r.category ∈ db.cats ∧ r.payment_source ∈ db.pss) ∧
    (StoreOp.insertTxn r ∈ (postBearer ctx db (some uid) b).2 →
      validateTransaction ctx b uid = [] ∧
      r.category ∈ db.cats ∧ r.payment_source ∈ db.pss) ∧
    (StoreOp.updateTxn tid r ∈ (putCookie ctx db (some uid) b bid).2 →
      validateTransaction ctx b uid = [] ∧
      r.category ∈ db.cats ∧ r.payment_source ∈ db.pss) ∧
    (StoreOp.updateTxn tid r ∈ (putBearer ctx db (some uid) b bid).2 →
      validateTransaction ctx b uid = [] ∧
      r.category ∈ db.cats ∧ r.payment_source ∈ db.pss) ∧
    (∀ editing f op, op ∈ (oldFormSubmit (some uid) editing f).1 →
      (∀ cid, op ≠ StoreOp.queryCategory cid ∧
              op ≠ StoreOp.queryPaymentSource cid ∧
              op ≠ StoreOp.fetchTxn cid)) ∧
    (∀ d todayStr, (receiptClientPersist (some uid) d todayStr).1.length = 1 ∧
      ∀ op ∈ (receiptClientPersist (some uid) d todayStr).1,
        (∀ cid, op ≠ StoreOp.queryCategory cid ∧
                op ≠ StoreOp.queryPaymentSource cid ∧
                op ≠ StoreOp.fetchTxn cid)) := by
  have hpost : StoreOp.insertTxn r ∈ (postCookie ctx db (some uid) b).2 →
      validateTransaction ctx b uid = [] ∧
      r.category ∈ db.cats ∧ r.payment_source ∈ db.pss := by
    intro hmem
    simp only [postCookie] at hmem
    by_cases hval : validateTransaction ctx b uid ≠ []
    · rw [if_pos hval] at hmem
      simp at hmem
    · rw [if_neg hval] at hmem
      push_neg at hval
      by_cases hcat : (buildRecord b uid).category ∉ db.cats
      · rw [if_pos hcat] at hmem
        simp [refOps] at hmem
      · rw [if_neg hcat] at hmem
        by_cases hps : (buildRecord b uid).payment_source ∉ db.pss
        · rw [if_pos hps] at hmem
          simp [refOps] at hmem
        · rw [if_neg hps] at hmem
          push_neg at hcat hps
          have hr : r = buildRecord b uid := by
            split at hmem <;> simpa [refOps] using hmem
          exact ⟨hval, hr ▸ hcat, hr ▸ hps⟩
  have hputCookie : StoreOp.updateTxn tid r ∈ (putCookie ctx db (some uid) b bid).2 →
      validateTransaction ctx b uid = [] ∧
      r.category ∈ db.cats ∧ r.payment_source ∈ db.pss := by
    intro hmem
    cases bid with
    | none => simp [putCookie] at hmem
    | some id =>
      simp only [putCookie] at hmem
      by_cases hid : id = ""
      · rw [if_pos hid] at hmem
        simp at hmem
      · rw [if_neg hid] at hmem
        cases hown : findTxnOwner db.txns id with
        | none => simp only [hown] at hmem; simp at hmem
        | some owner =>
          simp only [hown] at hmem
          by_cases hne : owner ≠ uid
          · rw [if_pos hne] at hmem
            simp at hmem
          · rw [if_neg hne] at hmem
            by_cases hval : validateTransaction ctx b uid ≠ []
            · rw [if_pos hval] at hmem
              simp at hmem
            · rw [if_neg hval] at hmem
              push_neg at hval
              by_cases hcat : (buildRecord b uid).category ∉ db.cats
              · rw [if_pos hcat] at hmem
                simp [refOps] at hmem
              · rw [if_neg hcat] at hmem
                by_cases hps : (buildRecord b uid).payment_source ∉ db.pss
                · rw [if_pos hps] at hmem
                  simp [refOps] at hmem
                · rw [if_neg hps] at hmem
                  push_neg at hcat hps
                  have hr : tid = id ∧ r = buildRecord b uid := by
                    split at hmem <;> simpa [refOps] using hmem
                  exact ⟨hval, hr.2 ▸ hcat, hr.2 ▸ hps⟩
  have hputBearer : StoreOp.updateTxn tid r ∈ (putBearer ctx db (some uid) b bid).2 →
      validateTransaction ctx b uid = [] ∧
      r.category ∈ db.cats ∧ r.payment_source ∈ db.pss := by
    intro hmem
    cases bid with
    | none => simp [putBearer] at hmem
    | some id =>
      simp only [putBearer] at hmem
      by_cases hid : id = ""
      · rw [if_pos hid] at hmem
        simp at hmem
      · rw [if_neg hid] at hmem
        cases hown : findTxnOwner db.txns id with
        | none => simp only [hown] at hmem; simp at hmem
        | some owner =>
          simp only [hown] at hmem
          by_cases hne : owner ≠ uid
          · rw [if_pos hne] at hmem
            simp at hmem
          · rw [if_neg hne] at hmem
            by_cases hval : validateTransaction ctx b uid ≠ []
            · rw [if_pos hval] at hmem
              simp at hmem
            · rw [if_neg hval] at hmem
              push_neg at hval
              by_cases hcat : (buildRecord b uid).category ∉ db.cats
              · rw [if_pos hcat] at hmem
                simp [refOps] at hmem
              · rw [if_neg hcat] at hmem
                by_cases hps : (buildRecord b uid).payment_source ∉ db.pss
                · rw [if_pos hps] at hmem
                  simp [refOps] at hmem
                · rw [if_neg hps] at hmem
                  push_neg at hcat hps
                  have hr : tid = id ∧ r = buildRecord b uid := by
                    split at hmem <;> simpa [refOps] using hmem
                  exact ⟨hval, hr.2 ▸ hcat, hr.2 ▸ hps⟩
  refine ⟨hpost, hpost, hputCookie, hputBearer, ?_, ?_⟩
  · intro editing f op hop cid
    simp only [oldFormSubmit] at hop
    cases editing with
    | none =>
      simp at hop
      subst hop
      refine ⟨by simp, by simp, by simp⟩
    | some tid' =>
      simp at hop
      subst hop
      refine ⟨by simp, by simp, by simp⟩
  · intro d todayStr
    refine ⟨rfl, ?_⟩
    intro op hop cid
    simp only [receiptClientPersist] at hop
    simp at hop
    subst hop
    refine ⟨by simp, by simp, by simp⟩

theorem claim_C1_witness :
    validateTransaction ctxAll validBody "u" = [] ∧
    "c1" ∈ dbDemo.cats ∧ "p1" ∈ dbDemo.pss := by
  have hmem : StoreOp.insertTxn (buildRecord validBody "u") ∈
      (postCookie ctxAll dbDemo (some "u") validBody).2 := by decide
  have h := (claim_C1 ctxAll dbDemo "u" validBody none "t1"
    (buildRecord validBody "u")).1 hmem
  exact ⟨h.1, h.2.1, h.2.2⟩

/-- The spec's XSS scenario on the real create path: the record the cookie
POST handler persists for `validBody` carries sanitized notes `"Lunch"` and
amount 50. -/
theorem scenario_notes_sanitized :
    StoreOp.insertTxn
      ⟨JsNumber.finite 50, "expense", "2024-03-15", "c1", "p1",
       some "Lunch", none, "u"⟩ ∈
      (postCookie ctxAll dbDemo (some "u") validBody).2 := by
  decide

end FinanceTracker
